import Mathlib

/-!
Verification of the voice-assistant core: the reminder scheduler and its
time-expression parsing (`src/services/reminders.py`), the reminder
background loop (`src/assistant.py`), the capture session
(`src/modules/stt.py`), and activation arbitration
(`src/modules/activation.py`).

Conventions of the shallow embedding:
* Instants (`datetime`) are seconds since an epoch, as `Nat`; a day is
  86400 s.  `datetime.replace(hour, minute, second=0, microsecond=0)`
  becomes `replaceHM`, `timedelta` addition becomes `Nat` addition.
  ISO-8601 strings compare lexicographically exactly as the instants
  compare numerically, so SQLite's `ORDER BY datetime` and
  `datetime <= now` are modelled by `Nat` order on `dueAt`.
* Texts are `List Char` (Unicode code points, as in Python `str`).
* The four fixed time regexes are modelled by a token matcher
  (`matchToks`/`search`) that is exact for these patterns: their token
  classes (literal, `\s+`, `\d+`) are pairwise disjoint at every
  boundary, so greedy matching without backtracking coincides with
  Python `re.search`, and removal of the leftmost match models
  `re.sub(pattern, '', text, count=1)`.
* External collaborators (the Vosk recognizer, the clock, the GPIO
  flags, the TTS engine) are inputs: a list of observed frames or poll
  observations, a flush text, boolean flags.
-/

/-! ## Character utilities (Python `str.lower`, `\s`, `\d`, `strip`) -/

/-- Lower-casing of a single code point, covering the ranges that occur
in this program's texts: ASCII `A`-`Z` and Cyrillic `А`-`Я`, `Ё`
(Python's `str.lower` on the full Unicode table restricted to these). -/
def lowerChar (c : Char) : Char :=
  if 65 ≤ c.toNat ∧ c.toNat ≤ 90 then Char.ofNat (c.toNat + 32)
  else if 1040 ≤ c.toNat ∧ c.toNat ≤ 1071 then Char.ofNat (c.toNat + 32)
  else if c.toNat = 1025 then Char.ofNat 1105
  else c

/-- Python `text.lower()` on the char list. -/
def lowerList (cs : List Char) : List Char := cs.map lowerChar

/-- Python regex `\s` (the whitespace that occurs in recognized speech). -/
def isSpaceChar (c : Char) : Bool :=
  c = ' ' || c = '\t' || c = '\n' || c = '\r' || c = '\x0b' || c = '\x0c'

/-- Python regex `\d` (ASCII decimal digits). -/
def isDigitChar (c : Char) : Bool := 48 ≤ c.toNat && c.toNat ≤ 57

/-- Python `int()` on a digit string. -/
def digitsToNat (ds : List Char) : Nat :=
  ds.foldl (fun a c => 10 * a + (c.toNat - 48)) 0

/-- Python `str.strip()`: drop whitespace at both ends. -/
def stripChars (cs : List Char) : List Char :=
  ((cs.dropWhile isSpaceChar).reverse.dropWhile isSpaceChar).reverse

/-- Does the first list occur at the head of the second one? -/
def startsWith : List Char → List Char → Bool
  | [], _ => true
  | _ :: _, [] => false
  | a :: as, b :: bs => a == b && startsWith as bs

/-! ## The fixed time-expression regexes of `parse_reminder_from_text` -/

/-- One token of the fixed patterns: a literal, `\s+`, or a captured
`(\d+)` group. -/
inductive Tok where
  | lit : List Char → Tok
  | ws : Tok
  | digits : Tok

/-- Match a token list at the head of `cs`; return the consumed length
and the captured `(\d+)` groups, in order.  Greedy per token, which
coincides with Python semantics for these patterns. -/
def matchToks : List Tok → List Char → Option (Nat × List Nat)
  | [], _ => some (0, [])
  | .lit l :: ts, cs =>
    if startsWith l cs then
      (matchToks ts (cs.drop l.length)).map (fun r => (l.length + r.1, r.2))
    else none
  | .ws :: ts, cs =>
    let n := (cs.takeWhile isSpaceChar).length
    if n = 0 then none
    else (matchToks ts (cs.drop n)).map (fun r => (n + r.1, r.2))
  | .digits :: ts, cs =>
    let ds := cs.takeWhile isDigitChar
    if ds.length = 0 then none
    else
      (matchToks ts (cs.drop ds.length)).map
        (fun r => (ds.length + r.1, digitsToNat ds :: r.2))

/-- Python `re.search`: leftmost match; returns start index, length and
captures. -/
def search (toks : List Tok) : List Char → Option (Nat × Nat × List Nat)
  | [] => (matchToks toks []).map (fun r => (0, r.1, r.2))
  | c :: rest =>
    match matchToks toks (c :: rest) with
    | some (len, caps) => some (0, len, caps)
    | none => (search toks rest).map (fun r => (r.1 + 1, r.2.1, r.2.2))

/-- Python `re.sub(pattern, '', text, count=1)`: remove the leftmost
match, if any. -/
def subFirst (toks : List Tok) (cs : List Char) : List Char :=
  match search toks cs with
  | none => cs
  | some (i, len, _) => cs.take i ++ cs.drop (i + len)

/-- Pattern `через\s+(\d+)\s+минут`. -/
def patMinutes : List Tok :=
  [.lit "через".toList, .ws, .digits, .ws, .lit "минут".toList]

/-- Pattern `через\s+(\d+)\s+час`. -/
def patHours : List Tok :=
  [.lit "через".toList, .ws, .digits, .ws, .lit "час".toList]

/-- Pattern `в\s+(\d+):(\d+)`. -/
def patAt : List Tok :=
  [.lit "в".toList, .ws, .digits, .lit ":".toList, .digits]

/-- Pattern `завтра\s+в\s+(\d+):(\d+)`; note it is the `в`-pattern
preceded by the literal `завтра` and whitespace. -/
def patTomorrow : List Tok := .lit "завтра".toList :: .ws :: patAt

/-! ## Instants -/

/-- Python `now.replace(hour=h, minute=m, second=0, microsecond=0)` on
the epoch-seconds representation. -/
def replaceHM (t h m : Nat) : Nat := t / 86400 * 86400 + h * 3600 + m * 60

/-- Branch `в_время` of the parser: today at `h:m`, rolled to tomorrow
when that instant is strictly in the past. -/
def rollover (now h m : Nat) : Nat :=
  let r := replaceHM now h m
  if r < now then r + 86400 else r

/-! ## `RemindersManager.parse_reminder_from_text` -/

/-- Translation of `RemindersManager.parse_reminder_from_text`: lower
the text, try the four patterns in the dict's insertion order
(`через_минут`, `через_часов`, `в_время`, `завтра_в`), first match
wins; strip the matched span out of the lowered text; on no match
return the original text with no time. -/
def parse_reminder_from_text (now : Nat) (text : List Char) :
    Option Nat × List Char :=
  let tl := lowerList text
  match search patMinutes tl with
  | some (_, _, caps) =>
    (some (now + 60 * caps.headD 0), stripChars (subFirst patMinutes tl))
  | none =>
    match search patHours tl with
    | some (_, _, caps) =>
      (some (now + 3600 * caps.headD 0), stripChars (subFirst patHours tl))
    | none =>
      match search patAt tl with
      | some (_, _, caps) =>
        (some (rollover now (caps.headD 0) ((caps.drop 1).headD 0)),
          stripChars (subFirst patAt tl))
      | none =>
        match search patTomorrow tl with
        | some (_, _, caps) =>
          (some (replaceHM now (caps.headD 0) ((caps.drop 1).headD 0) + 86400),
            stripChars (subFirst patTomorrow tl))
        | none => (none, text)

/-! ## The reminder store and `RemindersManager.check_reminders` -/

/-- One row of the `reminders` table. -/
structure Reminder where
  id : Nat
  text : List Char
  dueAt : Nat
  createdAt : Nat
  notified : Bool
deriving DecidableEq

/-- The `WHERE datetime <= ? AND notified = 0` filter. -/
def isDue (now : Nat) (r : Reminder) : Bool :=
  decide (r.dueAt ≤ now) && !r.notified

/-- Ordering on rows used by `ORDER BY datetime`. -/
def dueLE (a b : Reminder) : Prop := a.dueAt ≤ b.dueAt

instance : DecidableRel dueLE := fun a b => Nat.decLe a.dueAt b.dueAt

instance : IsTotal Reminder dueLE := ⟨fun a b => Nat.le_total a.dueAt b.dueAt⟩

instance : IsTrans Reminder dueLE := ⟨fun _ _ _ => Nat.le_trans⟩

/-- Translation of `RemindersManager.check_reminders` (the enabled
path): select the due unnotified rows ordered by `datetime` ascending,
then set `notified = 1` on each selected row id before returning; the
result is the fetched batch together with the updated table. -/
def check_reminders (now : Nat) (st : List Reminder) :
    List Reminder × List Reminder :=
  let due := (st.filter (isDue now)).insertionSort dueLE
  let ids := due.map (·.id)
  (due, st.map (fun r => if ids.contains r.id then { r with notified := true } else r))

/-! ## `VoiceAssistant._handle_reminder` -/

/-- Translation of `VoiceAssistant._handle_reminder`: parse the command;
only when both the parsed time and the remaining text are truthy
(`if remind_time and reminder_text:`) is `add_reminder` called, which
inserts `(text, dueAt, createdAt, notified=0)` (the id is
store-assigned; modelled as `0`).  The result is the inserted row, or
`none` when nothing is persisted and the failure message is spoken
instead. -/
def handle_reminder (now : Nat) (text : List Char) : Option Reminder :=
  match parse_reminder_from_text now text with
  | (some t, rt) => if rt = [] then none else some ⟨0, rt, t, now, false⟩
  | (none, _) => none

/-! ## `VoiceAssistant._reminder_checker` -/

/-- The environment one iteration of the background loop runs against:
what the poll produces (`none` models a raised exception), and which
texts the TTS engine fails on (a raised exception inside the
`for` loop). -/
structure CycleEnv where
  poll : Option (List (List Char))
  speakFails : List Char → Bool

/-- Speak the fetched texts in order; a failing `speak` raises, so the
texts after it are not spoken in that iteration.  Returns the texts
actually spoken and whether the iteration finished without raising. -/
def speakAll (fails : List Char → Bool) : List (List Char) → List (List Char) × Bool
  | [] => ([], true)
  | r :: rs =>
    if fails r then ([], false)
    else
      let p := speakAll fails rs
      (r :: p.1, p.2)

/-- One iteration of the `while self.running` body, with the
`try`/`except` of the source: a raise anywhere in the body is caught
and logged, after which the loop sleeps and continues. -/
def cycleRun (e : CycleEnv) : List (List Char) × Bool :=
  match e.poll with
  | none => ([], false)
  | some rems => speakAll e.speakFails rems

/-- Translation of `VoiceAssistant._reminder_checker`: the loop performs
one guarded iteration per interval until shutdown; the trace records the
texts spoken on each cycle. -/
def reminder_checker : List CycleEnv → List (List (List Char))
  | [] => []
  | e :: es => (cycleRun e).1 :: reminder_checker es

/-! ## `SpeechRecognizer.listen` -/

/-- One recognizer observation per audio chunk: `AcceptWaveform` true
with the `Result()` text (`finres`), or false with the
`PartialResult()` text (`partres`). -/
inductive Frame where
  | finres : List Char → Frame
  | partres : List Char → Frame
deriving DecidableEq

/-- The silence-counter update of one non-returning frame: a partial
with text resets the counter to 0, an empty partial or an (empty) final
increments it. -/
def nextSilence (s : Nat) : Frame → Nat
  | .finres _ => s + 1
  | .partres t => if t = [] then s + 1 else 0

/-- Does this frame carry a non-empty final text (which makes `listen`
return immediately)? -/
def nonemptyFinal : Frame → Bool
  | .finres t => decide (t ≠ [])
  | .partres _ => false

/-- The `if max_chunks and recorded_chunks >= max_chunks` check;
`max_chunks` is `None` when no timeout was given, and `0` is falsy. -/
def budgetHit (mc : Option Nat) (recorded : Nat) : Bool :=
  match mc with
  | none => false
  | some m => decide (0 < m) && decide (m ≤ recorded)

/-- The value `listen` returns after breaking out of the loop: the
cumulative `FinalResult()` text if non-empty, else `None`. -/
def flushResult (flush : List Char) : Option (List Char) :=
  if flush = [] then none else some flush

/-- The recording loop of `SpeechRecognizer.listen` over the observed
frames, carrying `silence_chunks` and `recorded_chunks`.  `flush` is
the text of the recognizer's cumulative `FinalResult()` at the moment
the loop stops.  `none` means the frame list was exhausted with the
loop still blocked on `audio_queue.get()`. -/
def listenLoop (maxSil : Nat) (mc : Option Nat) (flush : List Char) :
    List Frame → Nat → Nat → Option (Option (List Char))
  | [], _, _ => none
  | f :: rest, sil, recorded =>
    match f with
    | .finres t =>
      if t = [] then
        let sil' := nextSilence sil (.finres t)
        if maxSil ≤ sil' then some (flushResult flush)
        else if budgetHit mc (recorded + 1) then some (flushResult flush)
        else listenLoop maxSil mc flush rest sil' (recorded + 1)
      else some (some t)
    | .partres t =>
      let sil' := nextSilence sil (.partres t)
      if maxSil ≤ sil' then some (flushResult flush)
      else if budgetHit mc (recorded + 1) then some (flushResult flush)
      else listenLoop maxSil mc flush rest sil' (recorded + 1)

/-- Translation of `SpeechRecognizer.listen`: run the loop from zeroed
counters.  `maxSil` is `max_silence_chunks`
(`int(silence_timeout * sample_rate / chunk_size)`), `mc` is
`max_chunks`. -/
def listen (maxSil : Nat) (mc : Option Nat) (flush : List Char)
    (frames : List Frame) : Option (Option (List Char)) :=
  listenLoop maxSil mc flush frames 0 0

/-- The silence counter after consuming the given frames, starting
from `s`. -/
def silCountFrom (s : Nat) (fs : List Frame) : Nat := fs.foldl nextSilence s

/-- Declarative form of the two break checks after `n` consumed frames:
either the silence counter has reached `max_silence_chunks`, or the
frame budget is exhausted. -/
def stopTrigger (maxSil : Nat) (mc : Option Nat) (s r : Nat)
    (fs : List Frame) (n : Nat) : Prop :=
  maxSil ≤ silCountFrom s (fs.take n) ∨ budgetHit mc (r + n) = true

instance (maxSil mc s r fs n) : Decidable (stopTrigger maxSil mc s r fs n) := by
  unfold stopTrigger; infer_instance

/-- The loop, started with counters `s`, `r`, breaks exactly after
frame `k` (0-based): no earlier frame carried a non-empty final text,
no earlier check fired, and the check after frame `k` fires. -/
def breaksCleanFrom (maxSil : Nat) (mc : Option Nat) (s r : Nat)
    (fs : List Frame) (k : Nat) : Prop :=
  k < fs.length ∧ (∀ f ∈ fs.take (k + 1), nonemptyFinal f = false) ∧
    stopTrigger maxSil mc s r fs (k + 1) ∧
    ∀ j < k, ¬ stopTrigger maxSil mc s r fs (j + 1)

instance (maxSil mc s r fs k) :
    Decidable (breaksCleanFrom maxSil mc s r fs k) := by
  unfold breaksCleanFrom; infer_instance

/-! ## `ActivationManager.wait_for_activation` -/

/-- What one iteration of the polling loop observes: the two single-shot
flags and the elapsed time (milliseconds) at the timeout check. -/
structure PollObs where
  button : Bool
  wake : Bool
  elapsed : Nat
deriving DecidableEq

/-- The values `wait_for_activation` returns. -/
inductive ActResult where
  | button
  | wakeWord
  | timeout
  | auto
deriving DecidableEq

/-- The `if timeout and (time.time() - start_time) > timeout` check:
`None` and `0` are falsy, otherwise strict comparison. -/
def timeoutHit (timeout : Option Nat) (elapsed : Nat) : Bool :=
  match timeout with
  | none => false
  | some v => decide (0 < v) && decide (v < elapsed)

/-- The polling loop: button first, then wake word, then the timeout
check, else sleep 100 ms and poll again.  `none` means the loop is
still waiting when the observation list ends. -/
def waitLoop (timeout : Option Nat) : List PollObs → Option ActResult
  | [] => none
  | o :: rest =>
    if o.button then some .button
    else if o.wake then some .wakeWord
    else if timeoutHit timeout o.elapsed then some .timeout
    else waitLoop timeout rest

/-- Translation of `ActivationManager.wait_for_activation`: when both
activation methods are disabled return `'auto'` at once, before any LED
indication, thread start or polling; otherwise poll the flags. -/
def wait_for_activation (gpioEnabled wakeWordEnabled : Bool)
    (timeout : Option Nat) (obs : List PollObs) : Option ActResult :=
  if !gpioEnabled && !wakeWordEnabled then some .auto
  else waitLoop timeout obs

/-! ## Helper lemmas -/

theorem waitLoop_ne_timeout (t : Option Nat)
    (ht : ∀ e, timeoutHit t e = false) :
    ∀ obs : List PollObs, waitLoop t obs ≠ some ActResult.timeout := by
  intro obs
  induction obs with
  | nil => simp [waitLoop]
  | cons o rest ih =>
    simp only [waitLoop]
    by_cases hb : o.button = true
    · simp [hb]
    · by_cases hw : o.wake = true
      · simp [hb, hw]
      · simp [hb, hw, ht o.elapsed, ih]

/-! ## C6: both activation methods disabled -/

/-- C6: with both the GPIO method and the wake-word method disabled,
`wait_for_activation` returns `'auto'` immediately, for every timeout
and regardless of any poll observations (in particular with none at
all), so it never blocks and never enters the polling loop. -/
theorem wait_for_activation_auto (timeout : Option Nat)
    (obs : List PollObs) :
    wait_for_activation false false timeout obs = some ActResult.auto := rfl

/-! ## C5: tie-break determinism -/

/-- C5: in any poll cycle that the loop reaches (no earlier cycle fired
a flag or the timeout) in which both the button flag and the wake-word
flag are set, the result is `'button'`: the button check precedes the
wake-word check in the loop body. -/
theorem wait_for_activation_tiebreak (ge we : Bool) (t : Option Nat)
    (pre : List PollObs) (o : PollObs) (rest : List PollObs)
    (hen : (ge || we) = true)
    (hpre : ∀ p ∈ pre,
      p.button = false ∧ p.wake = false ∧ timeoutHit t p.elapsed = false)
    (hb : o.button = true) (hw : o.wake = true) :
    wait_for_activation ge we t (pre ++ o :: rest) = some ActResult.button := by
  have hactive : (!ge && !we) = false := by
    cases ge <;> cases we <;> simp_all
  unfold wait_for_activation
  rw [hactive]
  simp only [Bool.false_eq_true, if_false]
  induction pre with
  | nil => simp [waitLoop, hb]
  | cons p ps ih =>
    have hp := hpre p (List.mem_cons_self p ps)
    simp only [List.cons_append, waitLoop, hp.1, hp.2.1, hp.2.2]
    simp only [Bool.false_eq_true, if_false]
    exact ih (fun q hq => hpre q (List.mem_cons_of_mem p hq))

/-- Witness for C5: with both methods enabled and no timeout, one quiet
cycle followed by a cycle with both flags set yields `'button'`. -/
theorem wait_for_activation_tiebreak_witness :
    wait_for_activation true true none
      ([⟨false, false, 50⟩] ++ (⟨true, true, 150⟩ : PollObs) :: []) =
      some ActResult.button :=
  wait_for_activation_tiebreak true true none [⟨false, false, 50⟩]
    ⟨true, true, 150⟩ [] (by decide) (by decide) rfl rfl

/-! ## C7: timeout handling -/

/-- C7 fails as stated: `0` is a non-null timeout value, but
`if timeout and ...` treats it as falsy, so with `timeout=0`, elapsed
time `7 > 0` and neither flag set the call keeps waiting (`none`)
instead of returning `'timeout'`. -/
theorem wait_for_activation_timeout_zero_counterexample :
    wait_for_activation true false (some 0)
      [⟨false, false, 7⟩] = none ∧
    wait_for_activation true false (some 0)
      [⟨false, false, 7⟩] ≠ some ActResult.timeout := by decide

/-- C7 (amended): for every nonzero timeout value, once elapsed time
strictly exceeds it in a reached poll cycle with neither flag set, the
call returns `'timeout'`; with `timeout=None` — and likewise with the
falsy value `0` — it waits indefinitely, never returning
`'timeout'`. -/
theorem wait_for_activation_timeout_behavior :
    (∀ (ge we : Bool) (v : Nat) (pre : List PollObs) (o : PollObs)
      (rest : List PollObs),
      (ge || we) = true → 0 < v →
      (∀ p ∈ pre,
        p.button = false ∧ p.wake = false ∧
          timeoutHit (some v) p.elapsed = false) →
      o.button = false → o.wake = false → v < o.elapsed →
      wait_for_activation ge we (some v) (pre ++ o :: rest) =
        some ActResult.timeout) ∧
    (∀ (ge we : Bool) (obs : List PollObs),
      wait_for_activation ge we none obs ≠ some ActResult.timeout) ∧
    (∀ (ge we : Bool) (obs : List PollObs),
      wait_for_activation ge we (some 0) obs ≠ some ActResult.timeout) := by
  refine ⟨?_, ?_, ?_⟩
  · intro ge we v pre o rest hen hv hpre hb hw helapsed
    have hactive : (!ge && !we) = false := by
      cases ge <;> cases we <;> simp_all
    unfold wait_for_activation
    rw [hactive]
    simp only [Bool.false_eq_true, if_false]
    have hhit : timeoutHit (some v) o.elapsed = true := by
      simp [timeoutHit, hv, helapsed]
    induction pre with
    | nil => simp [waitLoop, hb, hw, hhit]
    | cons p ps ih =>
      have hp := hpre p (List.mem_cons_self p ps)
      simp only [List.cons_append, waitLoop, hp.1, hp.2.1, hp.2.2]
      simp only [Bool.false_eq_true, if_false]
      exact ih (fun q hq => hpre q (List.mem_cons_of_mem p hq))
  · intro ge we obs
    unfold wait_for_activation
    by_cases hactive : (!ge && !we) = true
    · simp [hactive]
    · simp only [Bool.not_eq_true] at hactive
      rw [hactive]
      simp only [Bool.false_eq_true, if_false]
      exact waitLoop_ne_timeout none (fun _ => rfl) obs
  · intro ge we obs
    unfold wait_for_activation
    by_cases hactive : (!ge && !we) = true
    · simp [hactive]
    · simp only [Bool.not_eq_true] at hactive
      rw [hactive]
      simp only [Bool.false_eq_true, if_false]
      exact waitLoop_ne_timeout (some 0) (fun _ => rfl) obs

/-- Witness for the amended C7: timeout 3, a quiet cycle at elapsed 1,
then a quiet cycle at elapsed 5 > 3 yields `'timeout'`. -/
theorem wait_for_activation_timeout_behavior_witness :
    wait_for_activation true false (some 3)
      ([⟨false, false, 1⟩] ++ (⟨false, false, 5⟩ : PollObs) :: []) =
      some ActResult.timeout :=
  wait_for_activation_timeout_behavior.1 true false 3 [⟨false, false, 1⟩]
    ⟨false, false, 5⟩ [] (by decide) (by decide) (by decide) rfl rfl
    (by decide)

/-! ## C3: the reminder loop survives failures -/

/-- C3: a raise in the poll or in the downstream speech delivery on one
cycle is caught by the loop body's `try`/`except`; the loop then sleeps
and runs the next cycle, so every scheduled cycle performs its poll: a
cycle whose poll raises contributes no notifications, and the following
cycles run exactly as they would on their own. -/
theorem reminder_checker_survives_failure :
    (∀ (pre post : List CycleEnv) (f : List Char → Bool),
      reminder_checker (pre ++ (⟨none, f⟩ : CycleEnv) :: post) =
        reminder_checker pre ++ [] :: reminder_checker post) ∧
    (∀ envs : List CycleEnv,
      (reminder_checker envs).length = envs.length) := by
  constructor
  · intro pre post f
    induction pre with
    | nil => simp [reminder_checker, cycleRun]
    | cons e es ih => simp [reminder_checker, ih]
  · intro envs
    induction envs with
    | nil => rfl
    | cons e es ih => simp [reminder_checker, ih]

/-! ## C1: exactly-once batch marking in `check_reminders` -/

/-- C1: on any store, the first call returns exactly the reminders with
`dueAt <= now` and `notified = 0`, ordered by `dueAt` ascending; every
row of the store it leaves behind is no longer due-and-unnotified (each
returned reminder's flag was flipped before returning), so a second
call in succession returns the empty list. -/
theorem check_reminders_exactly_once (now : Nat) (st : List Reminder) :
    ((check_reminders now st).1).Perm (st.filter (isDue now)) ∧
    List.Sorted dueLE (check_reminders now st).1 ∧
    (∀ r ∈ (check_reminders now st).2, isDue now r = false) ∧
    (check_reminders now ((check_reminders now st).2)).1 = [] := by
  have hperm : ((check_reminders now st).1).Perm (st.filter (isDue now)) :=
    List.perm_insertionSort dueLE _
  have hmarked : ∀ r ∈ (check_reminders now st).2, isDue now r = false := by
    intro r hr
    simp only [check_reminders, List.mem_map] at hr
    obtain ⟨r0, hr0, rfl⟩ := hr
    by_cases hc :
        (((st.filter (isDue now)).insertionSort dueLE).map (·.id)).contains
          r0.id = true
    · simp only [hc, if_true, isDue, Bool.not_true, Bool.and_false]
    · simp only [hc, if_false]
      by_cases hdue : isDue now r0 = true
      · exfalso
        apply hc
        have hmem : r0 ∈ (st.filter (isDue now)).insertionSort dueLE := by
          rw [List.mem_insertionSort]
          exact List.mem_filter.mpr ⟨hr0, hdue⟩
        rw [List.elem_iff]
        exact List.mem_map.mpr ⟨r0, hmem, rfl⟩
      · simpa using hdue
  refine ⟨hperm, List.sorted_insertionSort dueLE _, hmarked, ?_⟩
  have hfilter : ((check_reminders now st).2).filter (isDue now) = [] := by
    rw [List.filter_eq_nil_iff]
    intro r hr
    simp [hmarked r hr]
  show ((((check_reminders now st).2).filter (isDue now)).insertionSort dueLE)
    = []
  rw [hfilter]
  rfl

/-! ## C9: stored reminder text and the empty-strip case -/

/-- C9 fails as stated: for the successfully parsed command `"в 5:05"`
the matched span is the whole phrase, stripping leaves the empty
string, and `_handle_reminder` persists nothing at all — the original
phrase is not stored (`if remind_time and reminder_text:` is false on
an empty text, so `add_reminder` is never called). -/
theorem handle_reminder_empty_strip_counterexample :
    handle_reminder 0 "в 5:05".toList = none ∧
    (parse_reminder_from_text 0 "в 5:05".toList).1 = some 18300 ∧
    (parse_reminder_from_text 0 "в 5:05".toList).2 = [] := by decide

/-- C9 (amended): for every successfully parsed reminder command, the
stored reminder text is the (lower-cased) input with the matched time
span stripped and whitespace trimmed — the parser's remainder; if that
stripping leaves an empty string, no reminder is persisted at all (the
command is answered with a failure message), so a reminder with an
empty body is never persisted. -/
theorem handle_reminder_persistence (now : Nat) (text : List Char)
    (t : Nat) (rt : List Char)
    (hp : parse_reminder_from_text now text = (some t, rt)) :
    (rt ≠ [] → handle_reminder now text = some ⟨0, rt, t, now, false⟩) ∧
    (rt = [] → handle_reminder now text = none) ∧
    (∀ r ∈ (handle_reminder now text).toList, r.text ≠ []) := by
  refine ⟨?_, ?_, ?_⟩
  · intro hrt
    simp [handle_reminder, hp, hrt]
  · intro hrt
    simp [handle_reminder, hp, hrt]
  · intro r hr
    simp only [handle_reminder, hp] at hr
    by_cases hrt : rt = []
    · simp [hrt] at hr
    · simp only [hrt, if_false, Option.toList_some, List.mem_singleton] at hr
      subst hr
      exact hrt

/-- Witness for the amended C9: the command
`"напомни через 10 минут купить молоко"` at `now = 1000` persists the
row with text `"напомни  купить молоко"` (the matched span removed)
due at `1600`. -/
theorem handle_reminder_persistence_witness :
    handle_reminder 1000 "напомни через 10 минут купить молоко".toList =
      some ⟨0, "напомни  купить молоко".toList, 1600, 1000, false⟩ :=
  (handle_reminder_persistence 1000
      "напомни через 10 минут купить молоко".toList 1600
      "напомни  купить молоко".toList (by decide)).1 (by decide)

/-! ## C8: the `at HH:MM` rule with past-time rollover -/

/-- C8: when neither `через`-rule matches and `в HH:MM` matches with a
time Python's `datetime.replace` accepts, the parsed instant is today
at `HH:MM`, rolled to the same time tomorrow exactly when that instant
is strictly in the past. -/
theorem parse_at_time_rollover (now : Nat) (text : List Char)
    (i len h m : Nat)
    (hmin : search patMinutes (lowerList text) = none)
    (hhr : search patHours (lowerList text) = none)
    (hat : search patAt (lowerList text) = some (i, len, [h, m]))
    (hh : h ≤ 23) (hm : m ≤ 59) :
    (parse_reminder_from_text now text).1 =
      some (if replaceHM now h m < now then replaceHM now h m + 86400
            else replaceHM now h m) := by
  simp [parse_reminder_from_text, hmin, hhr, hat, rollover]

/-- Witness for C8: `"напомни в 8:00 зарядку"` at 20:00 of day zero
(`now = 72000`) resolves to tomorrow 08:00 (`115200`). -/
theorem parse_at_time_rollover_witness :
    (parse_reminder_from_text 72000 "напомни в 8:00 зарядку".toList).1 =
      some 115200 := by
  have h := parse_at_time_rollover 72000 "напомни в 8:00 зарядку".toList
    8 6 8 0 (by decide) (by decide) (by decide) (by decide) (by decide)
  simpa using h

/-! ## C2: the `завтра в HH:MM` rule is shadowed -/

theorem search_ne_none_of_matchToks (toks : List Tok) :
    ∀ (cs : List Char) (j : Nat),
      matchToks toks (cs.drop j) ≠ none → search toks cs ≠ none := by
  intro cs
  induction cs with
  | nil =>
    intro j h
    simp only [List.drop_nil] at h
    simp only [search, ne_eq, Option.map_eq_none']
    exact h
  | cons c rest ih =>
    intro j h
    simp only [search]
    cases hm : matchToks toks (c :: rest) with
    | some v => simp
    | none =>
      cases j with
      | zero => exact absurd hm (by simpa using h)
      | succ j' =>
        have h' : matchToks toks (rest.drop j') ≠ none := by simpa using h
        simp [Option.map_eq_none', ih j' h']

theorem matchToks_lit_tail (l : List Char) (ts : List Tok)
    (cs : List Char) (r : Nat × List Nat)
    (h : matchToks (.lit l :: ts) cs = some r) :
    ∃ j, matchToks ts (cs.drop j) ≠ none := by
  simp only [matchToks] at h
  split at h
  · rw [Option.map_eq_some'] at h
    obtain ⟨a, ha, _⟩ := h
    exact ⟨l.length, by simp [ha]⟩
  · exact absurd h (by simp)

theorem matchToks_ws_tail (ts : List Tok) (cs : List Char)
    (r : Nat × List Nat) (h : matchToks (.ws :: ts) cs = some r) :
    ∃ j, matchToks ts (cs.drop j) ≠ none := by
  simp only [matchToks] at h
  split at h
  · exact absurd h (by simp)
  · rw [Option.map_eq_some'] at h
    obtain ⟨a, ha, _⟩ := h
    exact ⟨(cs.takeWhile isSpaceChar).length, by simp [ha]⟩

theorem matchToks_of_search (toks : List Tok) :
    ∀ (cs : List Char) (i len : Nat) (caps : List Nat),
      search toks cs = some (i, len, caps) →
      matchToks toks (cs.drop i) = some (len, caps) := by
  intro cs
  induction cs with
  | nil =>
    intro i len caps h
    simp only [search, Option.map_eq_some'] at h
    obtain ⟨⟨al, ac⟩, ha, heq⟩ := h
    simp only [Prod.mk.injEq] at heq
    obtain ⟨hi, hl, hc⟩ := heq
    subst hi; subst hl; subst hc
    simpa using ha
  | cons c rest ih =>
    intro i len caps h
    simp only [search] at h
    cases hm : matchToks toks (c :: rest) with
    | some v =>
      obtain ⟨vl, vc⟩ := v
      rw [hm] at h
      simp only [Option.some.injEq, Prod.mk.injEq] at h
      obtain ⟨hi, hl, hc⟩ := h
      subst hi; subst hl; subst hc
      simpa using hm
    | none =>
      rw [hm] at h
      simp only [Option.map_eq_some'] at h
      obtain ⟨⟨ai, al, ac⟩, ha, heq⟩ := h
      simp only [Prod.mk.injEq] at heq
      obtain ⟨hi, hl, hc⟩ := heq
      subst hi; subst hl; subst hc
      simpa using ih ai al ac ha

theorem search_at_of_search_tomorrow (cs : List Char)
    (i len : Nat) (caps : List Nat)
    (h : search patTomorrow cs = some (i, len, caps)) :
    search patAt cs ≠ none := by
  have hm := matchToks_of_search patTomorrow cs i len caps h
  rw [patTomorrow] at hm
  obtain ⟨j1, h1⟩ := matchToks_lit_tail _ _ _ _ hm
  cases h2m : matchToks (.ws :: patAt) ((cs.drop i).drop j1) with
  | none => exact absurd h2m h1
  | some r2 =>
    obtain ⟨j2, h2⟩ := matchToks_ws_tail patAt _ r2 h2m
    refine search_ne_none_of_matchToks patAt cs (i + (j1 + j2)) ?_
    rw [List.drop_drop, List.drop_drop] at h2
    exact h2

/-- C2 fails as stated: the pattern dict is iterated in insertion order
(`в_время` before `завтра_в`) and any text matching
`завтра\s+в\s+(\d+):(\d+)` also matches `в\s+(\d+):(\d+)` (the
`завтра_в` pattern literally contains the `в_время` pattern), so the
`завтра_в` branch is unreachable.  Concretely,
`"напомни завтра в 9:00 позвонить"` parsed at 08:00 of day zero
(`now = 28800`) yields *today* 09:00 (`32400`) with remainder
`"напомни завтра  позвонить"`, not tomorrow 09:00 (`118800`) with
remainder `"позвонить"`. -/
theorem parse_tomorrow_counterexample :
    parse_reminder_from_text 28800 "напомни завтра в 9:00 позвонить".toList =
      (some 32400, "напомни завтра  позвонить".toList) ∧
    parse_reminder_from_text 28800 "напомни завтра в 9:00 позвонить".toList ≠
      (some 118800, "позвонить".toList) := by decide

/-- C2 (amended): every text matching the `завтра в HH:MM` phrasing
also matches the `в HH:MM` pattern, which is tried first, so such a
text never resolves through the unconditional-tomorrow rule: when the
two `через` rules do not match, it resolves through the `в_время` rule
— today at HH:MM, rolled to tomorrow only if already past — with the
`в HH:MM` span (not the `завтра в HH:MM` span) stripped from the
lower-cased text. -/
theorem parse_tomorrow_shadowed (now : Nat) (text : List Char)
    (i len : Nat) (caps : List Nat)
    (htom : search patTomorrow (lowerList text) = some (i, len, caps)) :
    search patAt (lowerList text) ≠ none ∧
    (∀ i' len' h m,
      search patMinutes (lowerList text) = none →
      search patHours (lowerList text) = none →
      search patAt (lowerList text) = some (i', len', [h, m]) →
      parse_reminder_from_text now text =
        (some (rollover now h m),
          stripChars (subFirst patAt (lowerList text)))) := by
  constructor
  · exact search_at_of_search_tomorrow _ i len caps htom
  · intro i' len' h m hmin hhr hat
    simp [parse_reminder_from_text, hmin, hhr, hat]

/-- Witness for the amended C2: the spec's own example resolves through
the `в_время` rule to today 09:00 when parsed at 08:00. -/
theorem parse_tomorrow_shadowed_witness :
    parse_reminder_from_text 28800 "напомни завтра в 9:00 позвонить".toList =
      (some 32400, "напомни завтра  позвонить".toList) := by
  have h := (parse_tomorrow_shadowed 28800
      "напомни завтра в 9:00 позвонить".toList 8 13 [9, 0]
      (by decide)).2 15 6 9 0 (by decide) (by decide) (by decide)
  rw [h]
  decide

/-! ## C10: the returned text is derived from the lower-cased input -/

theorem charToNat_ofNat (n : Nat) (h : n < 55296) :
    (Char.ofNat n).toNat = n := by
  unfold Char.ofNat
  rw [dif_pos (Or.inl h)]
  rfl

theorem lowerChar_idem (c : Char) : lowerChar (lowerChar c) = lowerChar c := by
  unfold lowerChar
  by_cases h1 : 65 ≤ c.toNat ∧ c.toNat ≤ 90
  · rw [if_pos h1]
    have ht : (Char.ofNat (c.toNat + 32)).toNat = c.toNat + 32 :=
      charToNat_ofNat _ (by omega)
    rw [if_neg (by rw [ht]; omega), if_neg (by rw [ht]; omega),
      if_neg (by rw [ht]; omega)]
  · rw [if_neg h1]
    by_cases h2 : 1040 ≤ c.toNat ∧ c.toNat ≤ 1071
    · rw [if_pos h2]
      have ht : (Char.ofNat (c.toNat + 32)).toNat = c.toNat + 32 :=
        charToNat_ofNat _ (by omega)
      rw [if_neg (by rw [ht]; omega), if_neg (by rw [ht]; omega),
        if_neg (by rw [ht]; omega)]
    · rw [if_neg h2]
      by_cases h3 : c.toNat = 1025
      · rw [if_pos h3]
        have ht : (Char.ofNat 1105).toNat = 1105 := by decide
        rw [if_neg (by rw [ht]; omega), if_neg (by rw [ht]; omega),
          if_neg (by rw [ht]; omega)]
      · rw [if_neg h3, if_neg h1, if_neg h2, if_neg h3]

theorem map_eq_self_of (f : Char → Char) :
    ∀ l : List Char, (∀ c ∈ l, f c = c) → l.map f = l := by
  intro l
  induction l with
  | nil => intro _; rfl
  | cons a as ih =>
    intro h
    simp only [List.map_cons, h a (List.mem_cons_self a as),
      ih (fun c hc => h c (List.mem_cons_of_mem a hc))]

theorem lowerChar_fixed_of_mem (cs : List Char) (c : Char)
    (h : c ∈ lowerList cs) : lowerChar c = c := by
  unfold lowerList at h
  rw [List.mem_map] at h
  obtain ⟨x, _, rfl⟩ := h
  exact lowerChar_idem x

theorem lowerList_idem (cs : List Char) :
    lowerList (lowerList cs) = lowerList cs :=
  map_eq_self_of _ _ (fun c hc => lowerChar_fixed_of_mem cs c hc)

theorem mem_of_mem_stripChars (cs : List Char) (c : Char)
    (h : c ∈ stripChars cs) : c ∈ cs := by
  unfold stripChars at h
  rw [List.mem_reverse] at h
  have h2 := (List.dropWhile_sublist isSpaceChar).subset h
  rw [List.mem_reverse] at h2
  exact (List.dropWhile_sublist isSpaceChar).subset h2

theorem mem_of_mem_subFirst (p : List Tok) (cs : List Char) (c : Char)
    (h : c ∈ subFirst p cs) : c ∈ cs := by
  unfold subFirst at h
  cases hs : search p cs with
  | none => rw [hs] at h; exact h
  | some v =>
    obtain ⟨i, len, caps⟩ := v
    rw [hs] at h
    rcases List.mem_append.mp h with h' | h'
    · exact List.mem_of_mem_take h'
    · exact List.mem_of_mem_drop h'

/-- C10: when some time pattern matches, the result of
`parse_reminder_from_text` is computed entirely from the lower-cased
input — the call agrees with a call on the already-lowered text and the
returned remainder is lower-case-fixed, so the stored body never
preserves the original letter case; when no pattern matches, the
returned text is the original input unchanged. -/
theorem parse_lower_derivation (now : Nat) (text : List Char) :
    ((parse_reminder_from_text now text).1 = none →
      (parse_reminder_from_text now text).2 = text) ∧
    ((parse_reminder_from_text now text).1 ≠ none →
      parse_reminder_from_text now text =
        parse_reminder_from_text now (lowerList text) ∧
      lowerList (parse_reminder_from_text now text).2 =
        (parse_reminder_from_text now text).2) := by
  have hfix : ∀ p : List Tok,
      lowerList (stripChars (subFirst p (lowerList text))) =
        stripChars (subFirst p (lowerList text)) := by
    intro p
    exact map_eq_self_of _ _ (fun c hc =>
      lowerChar_fixed_of_mem _ c
        (mem_of_mem_subFirst p _ c (mem_of_mem_stripChars _ c hc)))
  cases h1 : search patMinutes (lowerList text) with
  | some v =>
    obtain ⟨i, len, caps⟩ := v
    have hval : parse_reminder_from_text now text =
        (some (now + 60 * caps.headD 0),
          stripChars (subFirst patMinutes (lowerList text))) := by
      simp [parse_reminder_from_text, h1]
    have hval2 : parse_reminder_from_text now (lowerList text) =
        (some (now + 60 * caps.headD 0),
          stripChars (subFirst patMinutes (lowerList text))) := by
      simp [parse_reminder_from_text, lowerList_idem, h1]
    refine ⟨fun hn => by rw [hval] at hn; simp at hn,
      fun _ => ⟨hval.trans hval2.symm, ?_⟩⟩
    rw [hval]
    exact hfix patMinutes
  | none =>
    cases h2 : search patHours (lowerList text) with
    | some v =>
      obtain ⟨i, len, caps⟩ := v
      have hval : parse_reminder_from_text now text =
          (some (now + 3600 * caps.headD 0),
            stripChars (subFirst patHours (lowerList text))) := by
        simp [parse_reminder_from_text, h1, h2]
      have hval2 : parse_reminder_from_text now (lowerList text) =
          (some (now + 3600 * caps.headD 0),
            stripChars (subFirst patHours (lowerList text))) := by
        simp [parse_reminder_from_text, lowerList_idem, h1, h2]
      refine ⟨fun hn => by rw [hval] at hn; simp at hn,
        fun _ => ⟨hval.trans hval2.symm, ?_⟩⟩
      rw [hval]
      exact hfix patHours
    | none =>
      cases h3 : search patAt (lowerList text) with
      | some v =>
        obtain ⟨i, len, caps⟩ := v
        have hval : parse_reminder_from_text now text =
            (some (rollover now (caps.headD 0) ((caps.drop 1).headD 0)),
              stripChars (subFirst patAt (lowerList text))) := by
          simp [parse_reminder_from_text, h1, h2, h3]
        have hval2 : parse_reminder_from_text now (lowerList text) =
            (some (rollover now (caps.headD 0) ((caps.drop 1).headD 0)),
              stripChars (subFirst patAt (lowerList text))) := by
          simp [parse_reminder_from_text, lowerList_idem, h1, h2, h3]
        refine ⟨fun hn => by rw [hval] at hn; simp at hn,
          fun _ => ⟨hval.trans hval2.symm, ?_⟩⟩
        rw [hval]
        exact hfix patAt
      | none =>
        cases h4 : search patTomorrow (lowerList text) with
        | some v =>
          obtain ⟨i, len, caps⟩ := v
          have hval : parse_reminder_from_text now text =
              (some (replaceHM now (caps.headD 0) ((caps.drop 1).headD 0)
                  + 86400),
                stripChars (subFirst patTomorrow (lowerList text))) := by
            simp [parse_reminder_from_text, h1, h2, h3, h4]
          have hval2 : parse_reminder_from_text now (lowerList text) =
              (some (replaceHM now (caps.headD 0) ((caps.drop 1).headD 0)
                  + 86400),
                stripChars (subFirst patTomorrow (lowerList text))) := by
            simp [parse_reminder_from_text, lowerList_idem, h1, h2, h3, h4]
          refine ⟨fun hn => by rw [hval] at hn; simp at hn,
            fun _ => ⟨hval.trans hval2.symm, ?_⟩⟩
          rw [hval]
          exact hfix patTomorrow
        | none =>
          have hval : parse_reminder_from_text now text = (none, text) := by
            simp [parse_reminder_from_text, h1, h2, h3, h4]
          exact ⟨fun _ => by rw [hval],
            fun hne => absurd (by rw [hval]) hne⟩

/-- Witness for C10: the upper-case command `"В 5:05 ПАПА"` parses with
a match, agrees with the parse of its lower-casing, and returns the
lower-cased remainder `"папа"`. -/
theorem parse_lower_derivation_witness :
    (parse_reminder_from_text 0 "В 5:05 ПАПА".toList).1 ≠ none ∧
    (parse_reminder_from_text 0 "В 5:05 ПАПА".toList =
      parse_reminder_from_text 0 (lowerList "В 5:05 ПАПА".toList) ∧
    lowerList (parse_reminder_from_text 0 "В 5:05 ПАПА".toList).2 =
      (parse_reminder_from_text 0 "В 5:05 ПАПА".toList).2) :=
  ⟨by decide, (parse_lower_derivation 0 "В 5:05 ПАПА".toList).2 (by decide)⟩

/-! ## C4: silence endpointing in `listen` -/

theorem stopTrigger_cons (maxSil : Nat) (mc : Option Nat) (s r : Nat)
    (f : Frame) (rest : List Frame) (n : Nat) :
    stopTrigger maxSil mc s r (f :: rest) (n + 1) ↔
      stopTrigger maxSil mc (nextSilence s f) (r + 1) rest n := by
  unfold stopTrigger
  rw [List.take_succ_cons]
  have harith : r + (n + 1) = r + 1 + n := by omega
  rw [harith]
  exact Iff.rfl

theorem stopTrigger_zero (maxSil : Nat) (mc : Option Nat) (s r : Nat)
    (fs : List Frame) :
    stopTrigger maxSil mc s r fs 0 ↔
      (maxSil ≤ s ∨ budgetHit mc r = true) := by
  unfold stopTrigger
  rw [List.take_zero]
  simp [silCountFrom]

theorem stopTrigger_one (maxSil : Nat) (mc : Option Nat) (s r : Nat)
    (f : Frame) (rest : List Frame) :
    stopTrigger maxSil mc s r (f :: rest) 1 ↔
      (maxSil ≤ nextSilence s f ∨ budgetHit mc (r + 1) = true) := by
  have h := stopTrigger_cons maxSil mc s r f rest 0
  norm_num at h
  rw [h]
  exact stopTrigger_zero maxSil mc _ _ rest

theorem listenStep_none_iff (maxSil : Nat) (mc : Option Nat)
    (flush : List Char) (rest : List Frame) (f : Frame)
    (hf : nonemptyFinal f = false) (s r : Nat)
    (ihr : ∀ s' r', listenLoop maxSil mc flush rest s' r' = some none ↔
      flush = [] ∧ ∃ k, breaksCleanFrom maxSil mc s' r' rest k) :
    ((if maxSil ≤ nextSilence s f then some (flushResult flush)
      else if budgetHit mc (r + 1) then some (flushResult flush)
      else listenLoop maxSil mc flush rest (nextSilence s f) (r + 1))
        = some none) ↔
      flush = [] ∧ ∃ k, breaksCleanFrom maxSil mc s r (f :: rest) k := by
  have hfl : (some (flushResult flush) = some none) ↔ flush = [] := by
    by_cases hf0 : flush = [] <;> simp [flushResult, hf0]
  have hstop0 : ∀ htrig : maxSil ≤ nextSilence s f ∨ budgetHit mc (r + 1) = true,
      (some (flushResult flush) = some none) ↔
        flush = [] ∧ ∃ k, breaksCleanFrom maxSil mc s r (f :: rest) k := by
    intro htrig
    rw [hfl]
    constructor
    · intro h0
      refine ⟨h0, 0, ?_, ?_, ?_, ?_⟩
      · simp
      · intro g hg
        rw [List.take_succ_cons, List.take_zero] at hg
        rw [List.mem_singleton] at hg
        rw [hg]
        exact hf
      · exact (stopTrigger_one maxSil mc s r f rest).mpr htrig
      · intro j hj
        exact absurd hj (Nat.not_lt_zero j)
    · rintro ⟨h0, _⟩
      exact h0
  by_cases h1 : maxSil ≤ nextSilence s f
  · rw [if_pos h1]
    exact hstop0 (Or.inl h1)
  · rw [if_neg h1]
    by_cases h2 : budgetHit mc (r + 1) = true
    · rw [if_pos h2]
      exact hstop0 (Or.inr h2)
    · rw [if_neg h2]
      rw [ihr (nextSilence s f) (r + 1)]
      apply and_congr_right
      intro _
      constructor
      · rintro ⟨k, hk1, hk2, hk3, hk4⟩
        refine ⟨k + 1, ?_, ?_, ?_, ?_⟩
        · simpa using hk1
        · intro g hg
          rw [List.take_succ_cons] at hg
          rcases List.mem_cons.mp hg with hg | hg
          · rw [hg]; exact hf
          · exact hk2 g hg
        · exact (stopTrigger_cons maxSil mc s r f rest (k + 1)).mpr hk3
        · intro j hj
          cases j with
          | zero =>
            intro hcon
            rcases (stopTrigger_one maxSil mc s r f rest).mp hcon with h | h
            · exact h1 h
            · exact h2 h
          | succ j' =>
            intro hcon
            exact hk4 j' (by omega)
              ((stopTrigger_cons maxSil mc s r f rest (j' + 1)).mp hcon)
      · rintro ⟨k, hk1, hk2, hk3, hk4⟩
        cases k with
        | zero =>
          exfalso
          rcases (stopTrigger_one maxSil mc s r f rest).mp hk3 with h | h
          · exact h1 h
          · exact h2 h
        | succ k' =>
          refine ⟨k', ?_, ?_, ?_, ?_⟩
          · simpa using hk1
          · intro g hg
            refine hk2 g ?_
            rw [List.take_succ_cons]
            exact List.mem_cons_of_mem f hg
          · exact (stopTrigger_cons maxSil mc s r f rest (k' + 1)).mp hk3
          · intro j hj
            have hcon := hk4 (j + 1) (by omega)
            intro hx
            exact hcon ((stopTrigger_cons maxSil mc s r f rest (j + 1)).mpr hx)

theorem listenLoop_none_iff (maxSil : Nat) (mc : Option Nat)
    (flush : List Char) :
    ∀ (fs : List Frame) (s r : Nat),
      listenLoop maxSil mc flush fs s r = some none ↔
        flush = [] ∧ ∃ k, breaksCleanFrom maxSil mc s r fs k := by
  intro fs
  induction fs with
  | nil =>
    intro s r
    simp [listenLoop, breaksCleanFrom]
  | cons f rest ih =>
    intro s r
    cases f with
    | finres t =>
      by_cases ht : t = []
      · subst ht
        have hred : listenLoop maxSil mc flush (Frame.finres [] :: rest) s r =
            (if maxSil ≤ nextSilence s (Frame.finres []) then
              some (flushResult flush)
            else if budgetHit mc (r + 1) then some (flushResult flush)
            else listenLoop maxSil mc flush rest
              (nextSilence s (Frame.finres [])) (r + 1)) := rfl
        rw [hred]
        exact listenStep_none_iff maxSil mc flush rest (Frame.finres [])
          rfl s r ih
      · have hred : listenLoop maxSil mc flush (Frame.finres t :: rest) s r =
            some (some t) := by
          simp [listenLoop, ht]
        rw [hred]
        constructor
        · intro h
          simp only [Option.some.injEq] at h
          exact absurd h (by simp [ht])
        · rintro ⟨_, k, hk1, hk2, hk3, hk4⟩
          have hft := hk2 (Frame.finres t)
            (by rw [List.take_succ_cons]; exact List.mem_cons_self _ _)
          simp [nonemptyFinal, ht] at hft
    | partres t =>
      have hred : listenLoop maxSil mc flush (Frame.partres t :: rest) s r =
          (if maxSil ≤ nextSilence s (Frame.partres t) then
            some (flushResult flush)
          else if budgetHit mc (r + 1) then some (flushResult flush)
          else listenLoop maxSil mc flush rest
            (nextSilence s (Frame.partres t)) (r + 1)) := rfl
      rw [hred]
      exact listenStep_none_iff maxSil mc flush rest (Frame.partres t)
        rfl s r ih

/-- C4 fails as stated: with `max_silence_chunks = 2`, two empty
partials drive the silence counter to the threshold with no non-empty
final text observed, yet the session does not end with a no-speech
`None`: after breaking, `listen` queries the recognizer's cumulative
`FinalResult()`, and when that flush text is non-empty (here `"а"`) it
is returned as the result. -/
theorem listen_noSpeech_counterexample :
    listen 2 none ['а'] [Frame.partres [], Frame.partres []] =
      some (some ['а']) ∧
    2 ≤ silCountFrom 0 [Frame.partres [], Frame.partres []] ∧
    (∀ f ∈ [Frame.partres [], Frame.partres []],
      nonemptyFinal f = false) := by decide

/-- C4 (amended): a partial with non-empty text resets the silence
counter to 0 and every silent frame (empty partial, or a final with no
text) increments it; the session ends with a no-speech result (`None`)
iff the loop stopped — the silence counter reached
`max_silence_chunks`, or the `max_chunks` frame budget was hit, after
some frame, with no non-empty final text and no earlier stop before it
— and the recognizer's cumulative final flush text queried after
stopping is empty. -/
theorem listen_silence_characterization (maxSil : Nat) (mc : Option Nat)
    (flush : List Char) (fs : List Frame) :
    (∀ (s : Nat) (t : List Char), t ≠ [] →
      nextSilence s (.partres t) = 0) ∧
    (∀ (s : Nat) (t : List Char),
      nextSilence s (.partres []) = s + 1 ∧
      nextSilence s (.finres t) = s + 1) ∧
    (listen maxSil mc flush fs = some none ↔
      flush = [] ∧ ∃ k, breaksCleanFrom maxSil mc 0 0 fs k) := by
  refine ⟨?_, ?_, ?_⟩
  · intro s t ht
    simp [nextSilence, ht]
  · intro s t
    exact ⟨by simp [nextSilence], rfl⟩
  · exact listenLoop_none_iff maxSil mc flush fs 0 0

/-- Witness for the amended C4: an empty flush and two empty partials
against threshold 2 end the session with the no-speech `None`. -/
theorem listen_silence_characterization_witness :
    listen 2 none [] [Frame.partres [], Frame.partres []] = some none :=
  ((listen_silence_characterization 2 none []
      [Frame.partres [], Frame.partres []]).2.2).mpr ⟨rfl, 1, by decide⟩
